import Mathlib

/-!
Verification development for the seat-allocation engine of
`src/seating_arrangement.py` (function `generate_arrangement`, lines 256-413).

The engine is embedded shallowly:

* a pandas roster row becomes `RosterRow`; the DataFrame's column set is passed
  separately as a `List String` so that the required-column check at lines
  258-262 can be modelled;
* each `st.error` / `st.warning` call inside `generate_arrangement` becomes a
  `Diag` value collected in an output list;
* `Session` models the `'Morning' / 'Afternoon' / 'Both'` strings, dates are
  opaque ordinals (`Nat`), capacities are `Int` (the code never validates them);
* pandas `value_counts` is modelled as: tally the distinct subjects in order of
  first appearance, stable-sort ascending by count, reverse (this reproduces
  numpy's stable ascending argsort followed by the descending reversal that
  `sort_values(ascending=False)` performs, the behaviour for small inputs);
  `sort_values('IndexNumber')` is modelled as a stable sort by the
  code-point order on strings, which is how pandas compares `dtype=str` columns;
* `str(i + 1)` inside the room-label f-string at line 315 is modelled by
  `natStr`, a decimal-numeral printer defined here so that its arithmetic
  properties can be proved.
-/

inductive Session where
  | morning
  | afternoon
  | both
deriving DecidableEq

/-- One roster record, with the five fields `generate_arrangement` reads
(`IndexNumber`, `Full_Name`, `Class`, `Core_Subjects`, `Elective_Subjects`). -/
structure RosterRow where
  indexNumber : String
  fullName : String
  className : String
  coreSubjects : String
  electiveSubjects : String
deriving DecidableEq

/-- One entry of `student_subjects` (lines 264-275): a (student, subject) row. -/
structure Enrollment where
  indexNumber : String
  fullName : String
  className : String
  subject : String
deriving DecidableEq

/-- A row of `long_df` after dates and sessions are attached (lines 290-299). -/
structure ExamRow where
  indexNumber : String
  fullName : String
  className : String
  subject : String
  date : Nat
  session : Session
deriving DecidableEq

/-- An element of `all_seats` (lines 314-319). -/
structure Seat where
  room : String
  seatNo : Nat
deriving DecidableEq

/-- A row appended to `seating_arrangement` (lines 336-345). -/
structure Assignment where
  date : Nat
  room : String
  seatNo : Nat
  indexNumber : String
  fullName : String
  className : String
  subject : String
  session : Session
deriving DecidableEq

/-- The `st.error` / `st.warning` messages `generate_arrangement` can emit, one
constructor per call site, carrying the data interpolated into the message. -/
inductive Diag where
  | missingColumns (cols : List String)
  | noSubjects
  | noneSelected
  | capacity (session : Session) (date : Nat) (required available : Nat)
  | ranOut (session : Session) (date : Nat)
  | allSubjectsShort (session : Session) (date : Nat)
  | noArrangement
deriving DecidableEq

/-- One entry of the `stats` dictionary (lines 365-378). -/
structure SlotStat where
  date : Nat
  session : Session
  totalStudents : Nat
  totalSeats : Int
  roomsUsed : Nat
deriving DecidableEq

/-- Code-point comparison of character lists, the comparison Python uses on
`str`: `charsLe a b` is true when `a` is lexicographically at most `b`. -/
def charsLe : List Char → List Char → Bool
  | [], _ => true
  | _ :: _, [] => false
  | x :: xs, y :: ys =>
    if x.toNat < y.toNat then true
    else if y.toNat < x.toNat then false
    else charsLe xs ys

/-- Python `<=` on strings: code-point lexicographic order. -/
def strLe (a b : String) : Prop := charsLe a.data b.data = true

/-- Python `str.split(',')`: cut at every comma, keeping empty pieces. -/
def splitCommaAux : List Char → List Char → List String
  | [], acc => [⟨acc.reverse⟩]
  | c :: cs, acc =>
    if c = ',' then ⟨acc.reverse⟩ :: splitCommaAux cs [] else splitCommaAux cs (c :: acc)

def splitComma (s : String) : List String := splitCommaAux s.data []

/-- The whitespace characters Python `str.strip()` removes (ASCII part). -/
def isSpaceChar (c : Char) : Bool := c = ' ' || c = '\t' || c = '\n' || c = '\r'

/-- Python `str.strip()`: drop leading and trailing whitespace. -/
def strTrim (s : String) : String :=
  ⟨((s.data.dropWhile isSpaceChar).reverse.dropWhile isSpaceChar).reverse⟩

/-- Lines 266-268: split the two comma-joined subject strings, strip each
token, drop empties. -/
def splitSubjects (core elective : String) : List String :=
  ((splitComma core) ++ (splitComma elective)).map strTrim |>.filter (fun s => s ≠ "")

/-- Lines 264-275: one `Enrollment` per subject token of every roster row. -/
def expandEnrollments (rows : List RosterRow) : List Enrollment :=
  rows.flatMap (fun r =>
    (splitSubjects r.coreSubjects r.electiveSubjects).map (fun s =>
      { indexNumber := r.indexNumber, fullName := r.fullName,
        className := r.className, subject := s }))

/-- Lines 283-291: keep only enrollments whose subject is a key of
`subject_details` and attach that subject's date and session. -/
def resolveSessions (es : List Enrollment) (details : List (String × Nat × Session)) :
    List ExamRow :=
  es.filterMap (fun e =>
    match details.lookup e.subject with
    | some (d, s) =>
      some { indexNumber := e.indexNumber, fullName := e.fullName,
             className := e.className, subject := e.subject, date := d, session := s }
    | none => none)

def withSession (r : ExamRow) (s : Session) : ExamRow := { r with session := s }

/-- Lines 293-299: every `Both` row is replaced by a `Morning` copy and an
`Afternoon` copy; the non-`Both` rows keep their place at the front. -/
def splitBoth (long : List ExamRow) : List ExamRow :=
  let bothRows := long.filter (fun r => r.session = Session.both)
  if bothRows.isEmpty then long
  else
    long.filter (fun r => r.session ≠ Session.both)
      ++ bothRows.map (fun r => withSession r Session.morning)
      ++ bothRows.map (fun r => withSession r Session.afternoon)

def uniqueFirstAux {α : Type} [DecidableEq α] : List α → List α → List α
  | _, [] => []
  | seen, x :: xs =>
    if x ∈ seen then uniqueFirstAux seen xs else x :: uniqueFirstAux (x :: seen) xs

/-- Distinct elements in order of first appearance. -/
def uniqueFirst {α : Type} [DecidableEq α] (l : List α) : List α := uniqueFirstAux [] l

/-- The tallies behind `session_df['Subject'].value_counts()` (line 328):
each distinct subject, in order of first appearance, with its count. -/
def subjectCounts (rows : List ExamRow) : List (String × Nat) :=
  (uniqueFirst (rows.map (fun r => r.subject))).map
    (fun s => (s, (rows.map (fun r => r.subject)).count s))

def countLe (a b : String × Nat) : Prop := a.2 ≤ b.2

instance : DecidableRel countLe := fun a b => Nat.decLe a.2 b.2

instance : IsTotal (String × Nat) countLe := ⟨fun a b => Nat.le_total a.2 b.2⟩

instance : IsTrans (String × Nat) countLe := ⟨fun _ _ _ => Nat.le_trans⟩

/-- Lines 328-329: the traversal order of `subjects_in_session` — the tallies
sorted ascending by count with a stable sort, then reversed, i.e. descending
by count (`value_counts` sorts only the counts; it never compares names). -/
def subjectsInSession (rows : List ExamRow) : List String :=
  ((List.insertionSort countLe (subjectCounts rows)).reverse).map (fun p => p.1)

def digitChar (n : Nat) : Char :=
  if n = 0 then '0' else if n = 1 then '1' else if n = 2 then '2' else if n = 3 then '3'
  else if n = 4 then '4' else if n = 5 then '5' else if n = 6 then '6' else if n = 7 then '7'
  else if n = 8 then '8' else '9'

def natCharsAux : Nat → Nat → List Char
  | 0, _ => []
  | fuel + 1, n =>
    if n < 10 then [digitChar n] else natCharsAux fuel (n / 10) ++ [digitChar (n % 10)]

/-- Decimal numeral of `n`, modelling Python `str` on a non-negative int
(the fuel argument only makes the recursion structural; `natChars_eq` below
recovers the natural recurrence). -/
def natChars (n : Nat) : List Char := natCharsAux (n + 1) n

def natStr (n : Nat) : String := ⟨natChars n⟩

/-- Line 315: `f"Room {i+1} ({room})"`. -/
def roomLabel (i : Nat) (name : String) : String :=
  "Room " ++ natStr (i + 1) ++ " (" ++ name ++ ")"

/-- Lines 314-319: the seat pool — rooms in caller order, seats numbered
`1..capacity` inside each room (`range(1, capacity + 1)` is empty when the
capacity is not positive). -/
def buildSeats (rooms : List (String × Int)) : List Seat :=
  rooms.enum.flatMap (fun p =>
    (List.range p.2.2.toNat).map (fun k => { room := roomLabel p.1 p.2.1, seatNo := k + 1 }))

def idxLe (a b : ExamRow) : Prop := strLe a.indexNumber b.indexNumber

instance : DecidableRel idxLe := fun a b =>
  inferInstanceAs (Decidable (charsLe a.indexNumber.data b.indexNumber.data = true))

instance : IsTotal ExamRow idxLe := by
  constructor
  intro a b
  show charsLe a.indexNumber.data b.indexNumber.data = true
    ∨ charsLe b.indexNumber.data a.indexNumber.data = true
  generalize a.indexNumber.data = u
  generalize b.indexNumber.data = v
  induction u generalizing v with
  | nil => exact Or.inl rfl
  | cons x xs ih =>
    cases v with
    | nil => exact Or.inr rfl
    | cons y ys =>
      simp only [charsLe]
      by_cases h1 : x.toNat < y.toNat
      · exact Or.inl (by rw [if_pos h1])
      · by_cases h2 : y.toNat < x.toNat
        · exact Or.inr (by rw [if_pos h2])
        · simp only [if_neg h1, if_neg h2]
          exact ih ys

instance : IsTrans ExamRow idxLe := by
  constructor
  intro a b c
  show charsLe a.indexNumber.data b.indexNumber.data = true
    → charsLe b.indexNumber.data c.indexNumber.data = true
    → charsLe a.indexNumber.data c.indexNumber.data = true
  generalize a.indexNumber.data = u
  generalize b.indexNumber.data = v
  generalize c.indexNumber.data = w
  induction u generalizing v w with
  | nil => intro _ _; rfl
  | cons x xs ih =>
    intro hab hbc
    cases v with
    | nil => simp [charsLe] at hab
    | cons y ys =>
      cases w with
      | nil => simp [charsLe] at hbc
      | cons z zs =>
        simp only [charsLe] at hab hbc ⊢
        by_cases h1 : x.toNat < y.toNat
        · by_cases h2 : y.toNat < z.toNat
          · rw [if_pos (by omega)]
          · by_cases h3 : z.toNat < y.toNat
            · rw [if_neg h2, if_pos h3] at hbc
              exact absurd hbc (by simp)
            · rw [if_pos (by omega)]
        · by_cases h4 : y.toNat < x.toNat
          · rw [if_neg h1, if_pos h4] at hab
            exact absurd hab (by simp)
          · rw [if_neg h1, if_neg h4] at hab
            by_cases h2 : y.toNat < z.toNat
            · rw [if_pos (by omega)]
            · by_cases h3 : z.toNat < y.toNat
              · rw [if_neg h2, if_pos h3] at hbc
                exact absurd hbc (by simp)
              · rw [if_neg h2, if_neg h3] at hbc
                rw [if_neg (by omega), if_neg (by omega)]
                exact ih ys zs hab hbc

/-- Line 332: `sort_values('IndexNumber')` — ascending code-point order on the
identifier strings (the column is read with `dtype=str`). -/
def sortStudents (rows : List ExamRow) : List ExamRow := List.insertionSort idxLe rows

/-- Lines 336-345: the record appended for one student in one seat. -/
def mkAssign (r : ExamRow) (st : Seat) : Assignment :=
  { date := r.date, room := st.room, seatNo := st.seatNo, indexNumber := r.indexNumber,
    fullName := r.fullName, className := r.className, subject := r.subject,
    session := r.session }

/-- Lines 333-349, the inner student loop: while a seat is left, emit an
assignment and advance `seat_index`; otherwise report and break. -/
def seatStudents (d : Nat) (s : Session) (seats : List Seat) :
    Nat → List ExamRow → List Assignment × Nat × List Diag
  | idx, [] => ([], idx, [])
  | idx, r :: rs =>
    if h : idx < seats.length then
      let rest := seatStudents d s seats (idx + 1) rs
      (mkAssign r (seats.get ⟨idx, h⟩) :: rest.1, rest.2)
    else ([], idx, [Diag.ranOut s d])

/-- Lines 331-353, the subject loop: seat each subject's students in sorted
order; after a subject, if the pool is exhausted and more subjects remain
(`i < len(subjects_in_session) - 1`), report and break. -/
def allocSubjects (d : Nat) (s : Session) (rows : List ExamRow) (seats : List Seat) :
    Nat → List String → List Assignment × List Diag
  | _, [] => ([], [])
  | idx, subj :: rest =>
    let group := sortStudents (rows.filter (fun r => r.subject = subj))
    let step := seatStudents d s seats idx group
    if seats.length ≤ step.2.1 ∧ rest ≠ [] then
      (step.1, step.2.2 ++ [Diag.allSubjectsShort s d])
    else
      let next := allocSubjects d s rows seats step.2.1 rest
      (step.1 ++ next.1, step.2.2 ++ next.2)

/-- Lines 321-353: one (date, session) slot — the capacity pre-check at line
321, else the allocation loop starting from `seat_index = 0`. -/
def processSlot (d : Nat) (s : Session) (rows : List ExamRow) (seats : List Seat) :
    List Assignment × List Diag :=
  if seats.length < rows.length then
    ([], [Diag.capacity s d rows.length seats.length])
  else
    allocSubjects d s rows seats 0 (subjectsInSession rows)

/-- Line 258. -/
def requiredColumns : List String :=
  ["IndexNumber", "Full_Name", "Core_Subjects", "Elective_Subjects", "Class"]

/-- The fully resolved enrollment table (`long_df` after line 299). -/
def longRows (rows : List RosterRow) (details : List (String × Nat × Session)) :
    List ExamRow :=
  splitBoth (resolveSessions (expandEnrollments rows) details)

/-- Line 303: `sorted(long_df['Date'].unique())`. -/
def examDates (long : List ExamRow) : List Nat :=
  List.insertionSort (fun a b => a ≤ b) (uniqueFirst (long.map (fun r => r.date)))

/-- Lines 306-309: the rows of one (date, session) slot. -/
def slotRows (long : List ExamRow) (d : Nat) (s : Session) : List ExamRow :=
  long.filter (fun r => r.date = d ∧ r.session = s)

/-- Lines 305-308: dates in sorted order, each with Morning then Afternoon. -/
def slotsList (dates : List Nat) : List (Nat × Session) :=
  dates.flatMap (fun d => [(d, Session.morning), (d, Session.afternoon)])

/-- Lines 308-356: one slot's contribution — nothing when the slot is empty
(line 311), else `processSlot` on the slot's rows and a fresh seat pool. -/
def slotOutput (rooms : List (String × Int)) (long : List ExamRow) (p : Nat × Session) :
    List Assignment × List Diag :=
  let sr := slotRows long p.1 p.2
  if sr.isEmpty then ([], [])
  else processSlot p.1 p.2 sr (buildSeats rooms)

/-- The concatenated `arrangement_df` over all slots (lines 301-356). -/
def arrangementRows (rows : List RosterRow) (rooms : List (String × Int))
    (details : List (String × Nat × Session)) : List Assignment :=
  let long := longRows rows details
  (slotsList (examDates long)).flatMap (fun p => (slotOutput rooms long p).1)

/-- All slot-level messages of one run, in emission order. -/
def slotDiags (rows : List RosterRow) (rooms : List (String × Int))
    (details : List (String × Nat × Session)) : List Diag :=
  let long := longRows rows details
  (slotsList (examDates long)).flatMap (fun p => (slotOutput rooms long p).2)

/-- Lines 364-378: per-slot occupancy statistics. -/
def computeStats (arr : List Assignment) (rooms : List (String × Int))
    (dates : List Nat) : List SlotStat :=
  (slotsList dates).filterMap (fun p =>
    let sdf := arr.filter (fun a => a.date = p.1 ∧ a.session = p.2)
    if sdf.isEmpty then none
    else some { date := p.1, session := p.2, totalStudents := sdf.length,
                totalSeats := (rooms.map (fun rc => rc.2)).sum,
                roomsUsed := (uniqueFirst (sdf.map (fun a => a.room))).length })

/-- Lines 256-413: the whole engine. The first component models the returned
triple (`None` when the run produced nothing, line 262/279/288/360); the
second component is the list of messages shown to the user. -/
def generateArrangement (cols : List String) (rows : List RosterRow)
    (rooms : List (String × Int)) (details : List (String × Nat × Session)) :
    Option (List Assignment × List SlotStat) × List Diag :=
  if ¬ (requiredColumns.all (fun c => cols.contains c)) then
    (none, [Diag.missingColumns (requiredColumns.filter (fun c => ¬ cols.contains c))])
  else if (expandEnrollments rows).isEmpty then
    (none, [Diag.noSubjects])
  else if (resolveSessions (expandEnrollments rows) details).isEmpty then
    (none, [Diag.noneSelected])
  else
    let arr := arrangementRows rows rooms details
    let ds := slotDiags rows rooms details
    if arr.isEmpty then (none, ds ++ [Diag.noArrangement])
    else (some (arr, computeStats arr rooms (examDates (longRows rows details))), ds)

/-- The planned seating order of one slot: subjects in traversal order, each
subject's rows sorted by identifier (the order the loop at lines 331-346
walks when no break fires). -/
def groupsOf (rows : List ExamRow) (subjects : List String) : List ExamRow :=
  subjects.flatMap (fun subj => sortStudents (rows.filter (fun r => r.subject = subj)))

/-- The enrollment row an `Assignment` was generated from (every `ExamRow`
field is copied into the assignment by `mkAssign`). -/
def rowOf (a : Assignment) : ExamRow :=
  { indexNumber := a.indexNumber, fullName := a.fullName, className := a.className,
    subject := a.subject, date := a.date, session := a.session }

/-- The seat of an `Assignment`. -/
def seatOf (a : Assignment) : Seat := { room := a.room, seatNo := a.seatNo }

/-- What lines 293-299 do to a single row: a `Both` row becomes a Morning copy
and an Afternoon copy, identical apart from the session; other rows stay. -/
def expandBoth (r : ExamRow) : List ExamRow :=
  if r.session = Session.both then
    [withSession r Session.morning, withSession r Session.afternoon]
  else [r]

def digitVal (c : Char) : Nat := c.toNat - 48

/-- Numeric value of a digit string, inverse of `natChars`. -/
def evalDigits (l : List Char) : Nat := l.foldl (fun a c => 10 * a + digitVal c) 0

/-- Concrete fixtures used by witnesses and counterexamples. -/
def wr1 : ExamRow :=
  { indexNumber := "001", fullName := "John Doe", className := "3A",
    subject := "Biology", date := 3, session := Session.morning }

def wr2 : ExamRow :=
  { indexNumber := "002", fullName := "Jane Roe", className := "3A",
    subject := "Biology", date := 3, session := Session.morning }

def ws1 : Seat := { room := "R", seatNo := 1 }

def cr9 : ExamRow :=
  { indexNumber := "9", fullName := "Ann Lee", className := "3A",
    subject := "Math", date := 1, session := Session.morning }

def cr10 : ExamRow :=
  { indexNumber := "10", fullName := "Bob Fox", className := "3A",
    subject := "Math", date := 1, session := Session.morning }

def wb1 : ExamRow :=
  { indexNumber := "001", fullName := "John Doe", className := "3A",
    subject := "Art", date := 7, session := Session.both }

def cRoster : RosterRow :=
  { indexNumber := "001", fullName := "John Doe", className := "3A",
    coreSubjects := "Math", electiveSubjects := "" }

def cRooms : List (String × Int) := [("A", 0), ("B", 1)]

def cDetails : List (String × Nat × Session) := [("Math", 5, Session.morning)]

def cRoster2 : RosterRow :=
  { indexNumber := "001", fullName := "John Doe", className := "3A",
    coreSubjects := "Math,History", electiveSubjects := "" }

def cRooms2 : List (String × Int) := [("A", 2)]

def cAssign2 : Assignment :=
  { date := 5, room := "Room 1 (A)", seatNo := 1, indexNumber := "001",
    fullName := "John Doe", className := "3A", subject := "Math",
    session := Session.morning }

theorem mem_uniqueFirstAux {α : Type} [DecidableEq α] (a : α) :
    ∀ (l seen : List α), a ∈ uniqueFirstAux seen l ↔ a ∈ l ∧ a ∉ seen := by
  intro l
  induction l with
  | nil => intro seen; simp [uniqueFirstAux]
  | cons x xs ih =>
    intro seen
    simp only [uniqueFirstAux]
    by_cases hx : x ∈ seen
    · rw [if_pos hx, ih]
      simp only [List.mem_cons]
      constructor
      · rintro ⟨h1, h2⟩
        exact ⟨Or.inr h1, h2⟩
      · rintro ⟨h1 | h1, h2⟩
        · exact absurd (h1 ▸ hx) h2
        · exact ⟨h1, h2⟩
    · rw [if_neg hx]
      simp only [List.mem_cons, ih, List.mem_cons]
      constructor
      · rintro (rfl | ⟨h1, h2⟩)
        · exact ⟨Or.inl rfl, hx⟩
        · exact ⟨Or.inr h1, fun hs => h2 (Or.inr hs)⟩
      · rintro ⟨rfl | h1, h2⟩
        · exact Or.inl rfl
        · by_cases hax : a = x
          · exact Or.inl hax
          · exact Or.inr ⟨h1, fun hs => hs.elim hax h2⟩

theorem nodup_uniqueFirstAux {α : Type} [DecidableEq α] :
    ∀ (l seen : List α), (uniqueFirstAux seen l).Nodup := by
  intro l
  induction l with
  | nil => intro seen; simp [uniqueFirstAux]
  | cons x xs ih =>
    intro seen
    simp only [uniqueFirstAux]
    by_cases hx : x ∈ seen
    · rw [if_pos hx]
      exact ih seen
    · rw [if_neg hx]
      refine List.nodup_cons.mpr ⟨?_, ih (x :: seen)⟩
      intro hmem
      have h1 := (mem_uniqueFirstAux x xs (x :: seen)).mp hmem
      exact h1.2 (List.mem_cons_self x seen)

theorem mem_uniqueFirst {α : Type} [DecidableEq α] (a : α) :
    ∀ l : List α, a ∈ uniqueFirst l ↔ a ∈ l := by
  intro l
  unfold uniqueFirst
  rw [mem_uniqueFirstAux]
  simp

theorem nodup_uniqueFirst {α : Type} [DecidableEq α] :
    ∀ l : List α, (uniqueFirst l).Nodup := fun l => nodup_uniqueFirstAux l []

theorem subjectsInSession_perm (rows : List ExamRow) :
    (subjectsInSession rows).Perm (uniqueFirst (rows.map (fun r => r.subject))) := by
  have h1 : ((List.insertionSort countLe (subjectCounts rows)).reverse).Perm
      (subjectCounts rows) :=
    (List.reverse_perm _).trans (List.perm_insertionSort _ _)
  have h2 := h1.map (fun p : String × Nat => p.1)
  have h3 : (subjectCounts rows).map (fun p : String × Nat => p.1)
      = uniqueFirst (rows.map (fun r => r.subject)) := by
    simp only [subjectCounts, List.map_map]
    exact List.map_id _
  rw [h3] at h2
  exact h2

theorem mem_subjectsInSession (rows : List ExamRow) (s : String) :
    s ∈ subjectsInSession rows ↔ ∃ r ∈ rows, r.subject = s := by
  rw [(subjectsInSession_perm rows).mem_iff, mem_uniqueFirst, List.mem_map]

theorem nodup_subjectsInSession (rows : List ExamRow) :
    (subjectsInSession rows).Nodup :=
  (subjectsInSession_perm rows).nodup_iff.mpr (nodup_uniqueFirst _)

theorem groupsOf_perm :
    ∀ (subjects : List String) (rows : List ExamRow), subjects.Nodup →
      (∀ r ∈ rows, r.subject ∈ subjects) → (groupsOf rows subjects).Perm rows := by
  intro subjects
  induction subjects with
  | nil =>
    intro rows _ hall
    have : rows = [] := List.eq_nil_iff_forall_not_mem.mpr (fun r hr => by simpa using hall r hr)
    simp [this, groupsOf]
  | cons subj rest ih =>
    intro rows hnd hall
    have hsub : subj ∉ rest := (List.nodup_cons.mp hnd).1
    have hndr : rest.Nodup := (List.nodup_cons.mp hnd).2
    have hfix : groupsOf rows rest
        = groupsOf (rows.filter (fun r => !(decide (r.subject = subj)))) rest := by
      unfold groupsOf
      refine List.flatMap_congr (fun s2 hs2 => ?_)
      have hne : s2 ≠ subj := fun h => hsub (h ▸ hs2)
      congr 1
      rw [List.filter_filter]
      refine (List.filter_congr (fun a _ => ?_)).symm
      by_cases ha : a.subject = s2
      · simp [ha, hne]
      · simp [ha]
    have hmem : ∀ r ∈ rows.filter (fun r => !(decide (r.subject = subj))), r.subject ∈ rest := by
      intro r hr
      rw [List.mem_filter] at hr
      have := hall r hr.1
      simp only [List.mem_cons] at this
      rcases this with h | h
      · exfalso
        simp [h] at hr
      · exact h
    have hrec := ih (rows.filter (fun r => !(decide (r.subject = subj)))) hndr hmem
    have hsorted : (sortStudents (rows.filter (fun r => r.subject = subj))).Perm
        (rows.filter (fun r => r.subject = subj)) := List.perm_insertionSort _ _
    have hpart := List.filter_append_perm (fun r => decide (r.subject = subj)) rows
    have h1 : groupsOf rows (subj :: rest)
        = sortStudents (rows.filter (fun r => r.subject = subj)) ++ groupsOf rows rest := by
      simp [groupsOf]
    rw [h1, hfix]
    exact (hsorted.append hrec).trans hpart

theorem zipWith_map_rowOf :
    ∀ (l : List ExamRow) (s : List Seat),
      (List.zipWith mkAssign l s).map rowOf = l.take s.length := by
  intro l
  induction l with
  | nil => intro s; simp
  | cons r rs ih =>
    intro s
    cases s with
    | nil => simp
    | cons st ss => simp [ih, rowOf, mkAssign]

theorem zipWith_map_seatOf :
    ∀ (l : List ExamRow) (s : List Seat),
      (List.zipWith mkAssign l s).map seatOf = s.take l.length := by
  intro l
  induction l with
  | nil => intro s; cases s <;> simp
  | cons r rs ih =>
    intro s
    cases s with
    | nil => simp
    | cons st ss => simp [ih, seatOf, mkAssign]

theorem zipWith_append_drop :
    ∀ (a b : List ExamRow) (s : List Seat),
      List.zipWith mkAssign (a ++ b) s
        = List.zipWith mkAssign a s ++ List.zipWith mkAssign b (s.drop a.length) := by
  intro a
  induction a with
  | nil => intro b s; simp
  | cons x xs ih =>
    intro b s
    cases s with
    | nil => simp
    | cons st ss => simp [ih]

theorem seatStudents_success (d : Nat) (s : Session) (seats : List Seat) :
    ∀ (group : List ExamRow) (idx : Nat), idx + group.length ≤ seats.length →
    seatStudents d s seats idx group =
      (List.zipWith mkAssign group (seats.drop idx), idx + group.length, []) := by
  intro group
  induction group with
  | nil => intro idx h; simp [seatStudents]
  | cons r rs ih =>
    intro idx h
    have hlt : idx < seats.length := by
      simp only [List.length_cons] at h
      omega
    have hrec := ih (idx + 1) (by simp only [List.length_cons] at h; omega)
    rw [seatStudents, dif_pos hlt, hrec, List.drop_eq_getElem_cons hlt]
    simp only [List.zipWith_cons_cons, List.get_eq_getElem, List.length_cons, Prod.mk.injEq]
    refine ⟨trivial, ?_, trivial⟩
    omega

theorem allocSubjects_success (d : Nat) (s : Session) (rows : List ExamRow) (seats : List Seat) :
    ∀ (subjects : List String) (idx : Nat),
      idx + (groupsOf rows subjects).length ≤ seats.length →
      (∀ subj ∈ subjects, rows.filter (fun r => r.subject = subj) ≠ []) →
      allocSubjects d s rows seats idx subjects =
        (List.zipWith mkAssign (groupsOf rows subjects) (seats.drop idx), []) := by
  intro subjects
  induction subjects with
  | nil =>
    intro idx h hne
    simp [allocSubjects, groupsOf]
  | cons subj rest ih =>
    intro idx h hne
    have hsplit : groupsOf rows (subj :: rest)
        = sortStudents (rows.filter (fun r => r.subject = subj)) ++ groupsOf rows rest := by
      simp [groupsOf]
    have hglen : idx + (sortStudents (rows.filter (fun r => r.subject = subj))).length
        ≤ seats.length := by
      rw [hsplit, List.length_append] at h
      omega
    have hstep := seatStudents_success d s seats
      (sortStudents (rows.filter (fun r => r.subject = subj))) idx hglen
    rw [allocSubjects, hstep]
    by_cases hrest : rest = []
    · subst hrest
      rw [if_neg (by simp)]
      rw [allocSubjects]
      simp [groupsOf]
    · have hlt : idx + (sortStudents (rows.filter (fun r => r.subject = subj))).length
          < seats.length := by
        obtain ⟨s2, rest2, rfl⟩ := List.exists_cons_of_ne_nil hrest
        have hne2 : rows.filter (fun r => r.subject = s2) ≠ [] :=
          hne s2 (List.mem_cons_of_mem _ (List.mem_cons_self _ _))
        have hpos : 0 < (rows.filter (fun r => r.subject = s2)).length :=
          List.length_pos.mpr hne2
        have hlen2 : (groupsOf rows (s2 :: rest2)).length
            = (sortStudents (rows.filter (fun r => r.subject = s2))).length
              + (groupsOf rows rest2).length := by
          simp [groupsOf]
        have hsortlen : (sortStudents (rows.filter (fun r => r.subject = s2))).length
            = (rows.filter (fun r => r.subject = s2)).length :=
          (List.perm_insertionSort _ _).length_eq
        rw [hsplit, List.length_append, hlen2, hsortlen] at h
        omega
      rw [if_neg (by simp [Nat.not_le.mpr hlt])]
      rw [ih (idx + (sortStudents (rows.filter (fun r => r.subject = subj))).length)
        (by rw [hsplit, List.length_append] at h; omega)
        (fun s2 hs2 => hne s2 (List.mem_cons_of_mem _ hs2))]
      rw [hsplit, zipWith_append_drop]
      simp [List.drop_drop]

theorem processSlot_success (d : Nat) (s : Session) (rows : List ExamRow) (seats : List Seat)
    (h : rows.length ≤ seats.length) :
    processSlot d s rows seats =
      (List.zipWith mkAssign (groupsOf rows (subjectsInSession rows)) seats, []) := by
  have hperm : (groupsOf rows (subjectsInSession rows)).Perm rows :=
    groupsOf_perm _ _ (nodup_subjectsInSession rows)
      (fun r hr => (mem_subjectsInSession rows r.subject).mpr ⟨r, hr, rfl⟩)
  have hlen : (groupsOf rows (subjectsInSession rows)).length = rows.length := hperm.length_eq
  have hne : ∀ subj ∈ subjectsInSession rows,
      rows.filter (fun r => r.subject = subj) ≠ [] := by
    intro subj hsubj
    obtain ⟨r, hr, hrs⟩ := (mem_subjectsInSession rows subj).mp hsubj
    intro hnil
    have hmem : r ∈ rows.filter (fun r => r.subject = subj) := by
      simp [List.mem_filter, hr, hrs]
    rw [hnil] at hmem
    simp at hmem
  unfold processSlot
  rw [if_neg (by omega : ¬ seats.length < rows.length)]
  have hres := allocSubjects_success d s rows seats (subjectsInSession rows) 0
    (by omega) hne
  simpa using hres

theorem enum_flatMap_snd {α β : Type} (l : List α) (g : α → List β) :
    l.enum.flatMap (fun p => g p.2) = l.flatMap g := by
  have h1 : l.enum.map (fun p => g p.2) = (l.enum.map Prod.snd).map g := by
    rw [List.map_map]
    rfl
  have h2 : List.map Prod.snd l.enum = l := by
    rw [List.enum_eq_enumFrom]
    exact List.enumFrom_map_snd 0 l
  unfold List.flatMap
  rw [h1, h2]

/-- Claim C1: for a slot whose demand is at most the pool size (equality
included), allocation succeeds (no slot-level message is emitted) and the
multiset of (student, subject) pairs among the emitted assignments is exactly
the multiset of (student, subject) pairs of the slot's rows — nothing is lost
and nothing is duplicated. -/
theorem slot_allocation_complete (d : Nat) (s : Session) (rows : List ExamRow)
    (seats : List Seat) (h : rows.length ≤ seats.length) :
    (processSlot d s rows seats).2 = [] ∧
    ((processSlot d s rows seats).1.map (fun a => (a.indexNumber, a.subject))).Perm
      (rows.map (fun r => (r.indexNumber, r.subject))) := by
  have hperm : (groupsOf rows (subjectsInSession rows)).Perm rows :=
    groupsOf_perm _ _ (nodup_subjectsInSession rows)
      (fun r hr => (mem_subjectsInSession rows r.subject).mpr ⟨r, hr, rfl⟩)
  have hlen : (groupsOf rows (subjectsInSession rows)).length = rows.length := hperm.length_eq
  rw [processSlot_success d s rows seats h]
  refine ⟨rfl, ?_⟩
  show ((List.zipWith mkAssign (groupsOf rows (subjectsInSession rows)) seats).map
      (fun a => (a.indexNumber, a.subject))).Perm
    (rows.map (fun r => (r.indexNumber, r.subject)))
  have h1 : ((List.zipWith mkAssign (groupsOf rows (subjectsInSession rows)) seats).map
        rowOf).map (fun r : ExamRow => (r.indexNumber, r.subject))
      = (List.zipWith mkAssign (groupsOf rows (subjectsInSession rows)) seats).map
        (fun a => (a.indexNumber, a.subject)) := by
    rw [List.map_map]
    rfl
  rw [← h1, zipWith_map_rowOf, List.take_of_length_le (by omega)]
  exact hperm.map _

/-- Claim C3: a slot emits a message if and only if its demand strictly
exceeds the pool size, and in that case it emits exactly one capacity error
carrying the required and available counts and contributes zero assignments. -/
theorem capacity_error_iff_demand_exceeds_pool (d : Nat) (s : Session)
    (rows : List ExamRow) (seats : List Seat) :
    ((processSlot d s rows seats).2 ≠ [] ↔ seats.length < rows.length) ∧
    (seats.length < rows.length →
      processSlot d s rows seats = ([], [Diag.capacity s d rows.length seats.length])) := by
  have hfail : seats.length < rows.length →
      processSlot d s rows seats = ([], [Diag.capacity s d rows.length seats.length]) := by
    intro hlt
    unfold processSlot
    rw [if_pos hlt]
  refine ⟨⟨fun hne => ?_, fun hlt => ?_⟩, hfail⟩
  · by_contra hge
    rw [processSlot_success d s rows seats (by omega)] at hne
    exact hne rfl
  · rw [hfail hlt]
    simp

/-- Claim C6: the seat pool handed to every slot is the fresh `buildSeats`
sequence, the k-th assignment of a slot receives the k-th seat of that pool,
and the pool numbers seats 1..capacity ascending inside each room, visiting
rooms in the caller-supplied order. -/
theorem pool_order_and_assignment (d : Nat) (s : Session) (rows : List ExamRow)
    (rooms : List (String × Int)) :
    ((processSlot d s rows (buildSeats rooms)).1).map seatOf
      = (buildSeats rooms).take ((processSlot d s rows (buildSeats rooms)).1).length ∧
    (buildSeats rooms).map Seat.seatNo
      = rooms.flatMap (fun rc => (List.range rc.2.toNat).map (fun k => k + 1)) := by
  constructor
  · by_cases h : (buildSeats rooms).length < rows.length
    · unfold processSlot
      rw [if_pos h]
      simp
    · have hperm : (groupsOf rows (subjectsInSession rows)).Perm rows :=
        groupsOf_perm _ _ (nodup_subjectsInSession rows)
          (fun r hr => (mem_subjectsInSession rows r.subject).mpr ⟨r, hr, rfl⟩)
      have hlen : (groupsOf rows (subjectsInSession rows)).length = rows.length :=
        hperm.length_eq
      rw [processSlot_success d s rows _ (by omega)]
      show (List.zipWith mkAssign (groupsOf rows (subjectsInSession rows))
          (buildSeats rooms)).map seatOf
        = (buildSeats rooms).take (List.zipWith mkAssign
            (groupsOf rows (subjectsInSession rows)) (buildSeats rooms)).length
      rw [zipWith_map_seatOf]
      congr 1
      rw [List.length_zipWith]
      omega
  · unfold buildSeats
    rw [List.map_flatMap]
    have hinner : ∀ p ∈ rooms.enum,
        ((List.range p.2.2.toNat).map
          (fun k => ({ room := roomLabel p.1 p.2.1, seatNo := k + 1 } : Seat))).map
            Seat.seatNo
          = (List.range p.2.2.toNat).map (fun k => k + 1) := by
      intro p _
      rw [List.map_map]
      rfl
    rw [List.flatMap_congr hinner]
    exact enum_flatMap_snd rooms (fun rc => (List.range rc.2.toNat).map (fun k => k + 1))

theorem digitChar_ne_space (n : Nat) : digitChar n ≠ ' ' := by
  unfold digitChar
  repeat' split
  all_goals decide

theorem digitVal_digitChar (n : Nat) (h : n < 10) : digitVal (digitChar n) = n := by
  interval_cases n <;> decide

theorem evalDigits_append (l : List Char) (c : Char) :
    evalDigits (l ++ [c]) = 10 * evalDigits l + digitVal c := by
  unfold evalDigits
  rw [List.foldl_append]
  rfl

theorem natCharsAux_fuel :
    ∀ fuel1 n, n < fuel1 → ∀ fuel2, n < fuel2 → natCharsAux fuel1 n = natCharsAux fuel2 n := by
  intro fuel1
  induction fuel1 with
  | zero => intro n h; omega
  | succ f ih =>
    intro n h fuel2 h2
    cases fuel2 with
    | zero => omega
    | succ f2 =>
      simp only [natCharsAux]
      by_cases hn : n < 10
      · rw [if_pos hn, if_pos hn]
      · rw [if_neg hn, if_neg hn]
        congr 1
        exact ih (n / 10) (by omega) f2 (by omega)

theorem natChars_eq (n : Nat) :
    natChars n = if n < 10 then [digitChar n] else natChars (n / 10) ++ [digitChar (n % 10)] := by
  show natCharsAux (n + 1) n = _
  simp only [natCharsAux]
  by_cases hn : n < 10
  · rw [if_pos hn, if_pos hn]
  · rw [if_neg hn, if_neg hn]
    congr 1
    exact natCharsAux_fuel n (n / 10) (by omega) (n / 10 + 1) (by omega)

theorem evalDigits_natChars (n : Nat) : evalDigits (natChars n) = n := by
  induction n using Nat.strong_induction_on with
  | _ n ih =>
    by_cases h : n < 10
    · rw [natChars_eq, if_pos h]
      show 10 * 0 + digitVal (digitChar n) = n
      rw [digitVal_digitChar n h]
      omega
    · rw [natChars_eq, if_neg h, evalDigits_append, ih (n / 10) (by omega),
        digitVal_digitChar (n % 10) (Nat.mod_lt n (by omega))]
      omega

theorem natChars_ne_space (n : Nat) : ∀ c ∈ natChars n, c ≠ ' ' := by
  induction n using Nat.strong_induction_on with
  | _ n ih =>
    by_cases h : n < 10
    · rw [natChars_eq, if_pos h]
      intro c hc
      rw [List.mem_singleton] at hc
      rw [hc]
      exact digitChar_ne_space n
    · rw [natChars_eq, if_neg h]
      intro c hc
      rw [List.mem_append] at hc
      rcases hc with hc | hc
      · exact ih (n / 10) (by omega) c hc
      · rw [List.mem_singleton] at hc
        rw [hc]
        exact digitChar_ne_space (n % 10)

theorem natChars_inj {a b : Nat} (h : natChars a = natChars b) : a = b := by
  have ha := evalDigits_natChars a
  rw [h, evalDigits_natChars b] at ha
  omega

theorem space_append_cancel :
    ∀ (a : List Char), (∀ c ∈ a, c ≠ ' ') → ∀ (b : List Char), (∀ c ∈ b, c ≠ ' ') →
      ∀ (r1 r2 : List Char), a ++ ' ' :: r1 = b ++ ' ' :: r2 → a = b ∧ r1 = r2 := by
  intro a
  induction a with
  | nil =>
    intro _ b hb r1 r2 h
    cases b with
    | nil => simpa using h
    | cons c bs =>
      simp only [List.nil_append, List.cons_append, List.cons.injEq] at h
      exact absurd h.1.symm (hb c (by simp))
  | cons c as ih =>
    intro ha b hb r1 r2 h
    cases b with
    | nil =>
      simp only [List.cons_append, List.nil_append, List.cons.injEq] at h
      exact absurd h.1 (ha c (by simp))
    | cons c2 bs =>
      simp only [List.cons_append, List.cons.injEq] at h
      obtain ⟨h1, h2⟩ := h
      obtain ⟨hA, hB⟩ := ih (fun x hx => ha x (by simp [hx])) bs
        (fun x hx => hb x (by simp [hx])) r1 r2 h2
      exact ⟨by rw [h1, hA], hB⟩

theorem roomLabel_inj {i j : Nat} {x y : String} (h : roomLabel i x = roomLabel j y) :
    i = j := by
  unfold roomLabel at h
  have hd := congrArg String.data h
  simp only [String.data_append, List.append_assoc] at hd
  have hnat : ∀ n : Nat, (natStr n).data = natChars n := fun n => rfl
  rw [hnat, hnat] at hd
  simp only [List.cons_append, List.nil_append, List.cons.injEq, true_and] at hd
  have hcl := hd
  have := space_append_cancel (natChars (i + 1)) (natChars_ne_space (i + 1))
    (natChars (j + 1)) (natChars_ne_space (j + 1)) _ _ hcl
  have := natChars_inj this.1
  omega

theorem buildSeats_nodup (rooms : List (String × Int)) : (buildSeats rooms).Nodup := by
  unfold buildSeats
  rw [List.nodup_flatMap]
  constructor
  · intro p _
    refine List.Nodup.map ?_ (List.nodup_range _)
    intro k1 k2 hk
    have := congrArg Seat.seatNo hk
    simpa using this
  · have h1 : (rooms.enum.map Prod.fst).Nodup := List.nodup_enum_map_fst _
    have h2 : List.Pairwise (fun p q : Nat × String × Int => p.1 ≠ q.1) rooms.enum :=
      List.pairwise_map.mp h1
    refine h2.imp ?_
    intro p q hne
    intro a hap haq
    simp only [List.mem_map, List.mem_range] at hap haq
    obtain ⟨k1, _, hk1⟩ := hap
    obtain ⟨k2, _, hk2⟩ := haq
    have hroom : roomLabel p.1 p.2.1 = roomLabel q.1 q.2.1 := by
      rw [← hk2] at hk1
      exact congrArg Seat.room hk1
    exact hne (roomLabel_inj hroom)

theorem processSlot_map_seatOf (d : Nat) (s : Session) (rows : List ExamRow)
    (seats : List Seat) :
    ((processSlot d s rows seats).1).map seatOf
      = seats.take ((processSlot d s rows seats).1).length := by
  by_cases h : seats.length < rows.length
  · unfold processSlot
    rw [if_pos h]
    simp
  · have hperm : (groupsOf rows (subjectsInSession rows)).Perm rows :=
      groupsOf_perm _ _ (nodup_subjectsInSession rows)
        (fun r hr => (mem_subjectsInSession rows r.subject).mpr ⟨r, hr, rfl⟩)
    have hlen : (groupsOf rows (subjectsInSession rows)).length = rows.length :=
      hperm.length_eq
    rw [processSlot_success d s rows seats (by omega)]
    show (List.zipWith mkAssign (groupsOf rows (subjectsInSession rows)) seats).map seatOf
      = seats.take (List.zipWith mkAssign (groupsOf rows (subjectsInSession rows)) seats).length
    rw [zipWith_map_seatOf]
    congr 1
    rw [List.length_zipWith]
    omega

theorem processSlot_pairs_nodup (d : Nat) (s : Session) (rows : List ExamRow)
    (rooms : List (String × Int)) :
    (((processSlot d s rows (buildSeats rooms)).1).map seatOf).Nodup := by
  rw [processSlot_map_seatOf]
  exact (buildSeats_nodup rooms).sublist (List.take_sublist _ _)

theorem mem_processSlot_rowOf (d : Nat) (s : Session) (rows : List ExamRow)
    (seats : List Seat) :
    ∀ a ∈ (processSlot d s rows seats).1, rowOf a ∈ rows := by
  intro a ha
  by_cases h : seats.length < rows.length
  · unfold processSlot at ha
    rw [if_pos h] at ha
    simp at ha
  · have hperm : (groupsOf rows (subjectsInSession rows)).Perm rows :=
      groupsOf_perm _ _ (nodup_subjectsInSession rows)
        (fun r hr => (mem_subjectsInSession rows r.subject).mpr ⟨r, hr, rfl⟩)
    rw [processSlot_success d s rows seats (by omega)] at ha
    have h1 : rowOf a ∈ (List.zipWith mkAssign (groupsOf rows (subjectsInSession rows))
        seats).map rowOf := List.mem_map_of_mem _ ha
    rw [zipWith_map_rowOf] at h1
    exact hperm.mem_iff.mp (List.mem_of_mem_take h1)

theorem processSlot_fields (d : Nat) (s : Session) (rows : List ExamRow) (seats : List Seat)
    (hrows : ∀ r ∈ rows, r.date = d ∧ r.session = s) :
    ∀ a ∈ (processSlot d s rows seats).1, a.date = d ∧ a.session = s := by
  intro a ha
  exact hrows (rowOf a) (mem_processSlot_rowOf d s rows seats a ha)

theorem slotRows_fields (long : List ExamRow) (d : Nat) (s : Session) :
    ∀ r ∈ slotRows long d s, r.date = d ∧ r.session = s := by
  intro r hr
  unfold slotRows at hr
  rw [List.mem_filter] at hr
  have := hr.2
  simpa using this

theorem slotOutput_fields (rooms : List (String × Int)) (long : List ExamRow)
    (p : Nat × Session) :
    ∀ a ∈ (slotOutput rooms long p).1, a.date = p.1 ∧ a.session = p.2 := by
  intro a ha
  simp only [slotOutput] at ha
  split at ha
  · simp at ha
  · exact processSlot_fields p.1 p.2 _ _ (slotRows_fields long p.1 p.2) a ha

theorem nodup_slotsList (dates : List Nat) (h : dates.Nodup) : (slotsList dates).Nodup := by
  unfold slotsList
  rw [List.nodup_flatMap]
  constructor
  · intro d _
    simp
  · refine h.imp ?_
    intro d1 d2 hne
    intro a ha1 ha2
    simp only [List.mem_cons, List.mem_singleton, List.not_mem_nil, or_false] at ha1 ha2
    rcases ha1 with rfl | rfl <;> rcases ha2 with h2 | h2 <;>
      exact hne (congrArg Prod.fst h2)

theorem examDates_nodup (long : List ExamRow) : (examDates long).Nodup := by
  unfold examDates
  exact (List.perm_insertionSort _ _).nodup_iff.mpr (nodup_uniqueFirst _)

theorem filter_flatMap_slots (f : Nat × Session → List Assignment)
    (hf : ∀ p, ∀ a ∈ f p, a.date = p.1 ∧ a.session = p.2) (d : Nat) (s : Session) :
    ∀ (slots : List (Nat × Session)), slots.Nodup →
      (slots.flatMap f).filter (fun a => a.date = d ∧ a.session = s)
        = if (d, s) ∈ slots then f (d, s) else [] := by
  intro slots
  induction slots with
  | nil => intro _; simp
  | cons p rest ih =>
    intro hnd
    rw [List.flatMap_cons, List.filter_append, ih (List.nodup_cons.mp hnd).2]
    by_cases hp : p = (d, s)
    · subst hp
      have h1 : (f (d, s)).filter (fun a => a.date = d ∧ a.session = s) = f (d, s) :=
        List.filter_eq_self.mpr (fun a ha => by
          have h2 := hf (d, s) a ha
          simp [h2.1, h2.2])
      rw [h1, if_neg (List.nodup_cons.mp hnd).1, if_pos (List.mem_cons_self _ _)]
      simp
    · have h1 : (f p).filter (fun a => a.date = d ∧ a.session = s) = [] := by
        rw [List.filter_eq_nil_iff]
        intro a ha hpred
        have h2 := hf p a ha
        simp only [decide_eq_true_eq] at hpred
        refine hp ?_
        have : p = (p.1, p.2) := rfl
        rw [this, ← h2.1, ← h2.2, hpred.1, hpred.2]
      rw [h1, List.nil_append]
      by_cases hm : (d, s) ∈ rest
      · rw [if_pos hm, if_pos (List.mem_cons_of_mem _ hm)]
      · rw [if_neg hm, if_neg ?_]
        rw [List.mem_cons]
        rintro (h2 | h2)
        · exact hp h2.symm
        · exact hm h2

/-- Claim C2: in any run, for any (date, session) slot, no two assignments of
that slot carry the same (room, seat-number) pair, whatever the roster,
schedule and room configuration. -/
theorem seat_pairs_unique_within_slot (rows : List RosterRow)
    (rooms : List (String × Int)) (details : List (String × Nat × Session))
    (d : Nat) (s : Session) :
    (((arrangementRows rows rooms details).filter
        (fun a => a.date = d ∧ a.session = s)).map seatOf).Nodup := by
  unfold arrangementRows
  rw [filter_flatMap_slots (fun p => (slotOutput rooms (longRows rows details) p).1)
    (fun p => slotOutput_fields rooms (longRows rows details) p) d s
    (slotsList (examDates (longRows rows details)))
    (nodup_slotsList _ (examDates_nodup _))]
  by_cases hm : (d, s) ∈ slotsList (examDates (longRows rows details))
  · rw [if_pos hm]
    simp only [slotOutput]
    split
    · simp
    · exact processSlot_pairs_nodup d s _ rooms
  · rw [if_neg hm]
    simp

theorem mem_sortStudents (r : ExamRow) (l : List ExamRow) :
    r ∈ sortStudents l ↔ r ∈ l := (List.perm_insertionSort idxLe l).mem_iff

theorem groupsOf_filter_subject (rows : List ExamRow) (subj : String) :
    ∀ (subjects : List String), subjects.Nodup →
      (groupsOf rows subjects).filter (fun r => r.subject = subj)
        = if subj ∈ subjects then sortStudents (rows.filter (fun r => r.subject = subj))
          else [] := by
  intro subjects
  induction subjects with
  | nil => intro _; simp [groupsOf]
  | cons s2 rest ih =>
    intro hnd
    have hsplit : groupsOf rows (s2 :: rest)
        = sortStudents (rows.filter (fun r => r.subject = s2)) ++ groupsOf rows rest := by
      simp [groupsOf]
    rw [hsplit, List.filter_append, ih (List.nodup_cons.mp hnd).2]
    have hallsub : ∀ r ∈ sortStudents (rows.filter (fun r => r.subject = s2)),
        r.subject = s2 := by
      intro r hr
      have h1 := (mem_sortStudents r _).mp hr
      rw [List.mem_filter] at h1
      simpa using h1.2
    by_cases hs : s2 = subj
    · subst hs
      rw [List.filter_eq_self.mpr (fun r hr => by simp [hallsub r hr])]
      rw [if_neg (List.nodup_cons.mp hnd).1, if_pos (List.mem_cons_self _ _)]
      simp
    · rw [List.filter_eq_nil_iff.mpr (fun r hr hpred => by
        have h1 := hallsub r hr
        simp only [decide_eq_true_eq] at hpred
        rw [h1] at hpred
        exact hs hpred)]
      rw [List.nil_append]
      by_cases hm : subj ∈ rest
      · rw [if_pos hm, if_pos (List.mem_cons_of_mem _ hm)]
      · rw [if_neg hm, if_neg ?_]
        rw [List.mem_cons]
        rintro (h2 | h2)
        · exact hs h2.symm
        · exact hm h2

theorem sortStudents_sorted (l : List ExamRow) :
    List.Sorted strLe ((sortStudents l).map (fun r => r.indexNumber)) := by
  have h := List.sorted_insertionSort idxLe l
  exact List.pairwise_map.mpr h

theorem filter_subject_map_zipWith (l : List ExamRow) (seats : List Seat) (subj : String) :
    ((List.zipWith mkAssign l seats).filter (fun a => a.subject = subj)).map
      (fun a => a.indexNumber)
    = ((l.take seats.length).filter (fun r => r.subject = subj)).map
      (fun r => r.indexNumber) := by
  have h1 : (((List.zipWith mkAssign l seats).map rowOf).filter
      (fun r => r.subject = subj)).map (fun r => r.indexNumber)
      = ((List.zipWith mkAssign l seats).filter (fun a => a.subject = subj)).map
        (fun a => a.indexNumber) := by
    rw [List.filter_map, List.map_map]
    rfl
  rw [← h1, zipWith_map_rowOf]

/-- Claim C5 (amended): within each subject of a slot that passes the
capacity check, students are seated in ascending code-point (lexicographic)
order of their identifier strings — the order `sort_values` applies to a
`dtype=str` column — not in numeric-aware order. -/
theorem students_sorted_lexicographically (d : Nat) (s : Session) (rows : List ExamRow)
    (seats : List Seat) (subj : String) (h : rows.length ≤ seats.length) :
    List.Sorted strLe
      ((((processSlot d s rows seats).1).filter (fun a => a.subject = subj)).map
        (fun a => a.indexNumber)) := by
  have hperm : (groupsOf rows (subjectsInSession rows)).Perm rows :=
    groupsOf_perm _ _ (nodup_subjectsInSession rows)
      (fun r hr => (mem_subjectsInSession rows r.subject).mpr ⟨r, hr, rfl⟩)
  have hlen : (groupsOf rows (subjectsInSession rows)).length = rows.length := hperm.length_eq
  rw [processSlot_success d s rows seats h]
  show List.Sorted strLe
    (((List.zipWith mkAssign (groupsOf rows (subjectsInSession rows)) seats).filter
      (fun a => a.subject = subj)).map (fun a => a.indexNumber))
  rw [filter_subject_map_zipWith, List.take_of_length_le (by omega),
    groupsOf_filter_subject rows subj _ (nodup_subjectsInSession rows)]
  by_cases hm : subj ∈ subjectsInSession rows
  · rw [if_pos hm]
    exact sortStudents_sorted _
  · rw [if_neg hm]
    simp [List.Sorted]

/-- Claim C5 is false as stated: with identifiers "9" and "10" in one subject,
the slot seats "10" first (seat 1) and "9" second (seat 2) — the code-point
string sort of `sort_values`, not a numeric-aware comparison. -/
theorem student_order_counterexample :
    (((processSlot 1 Session.morning [cr9, cr10] (buildSeats [("A", 2)])).1).map
      (fun a => (a.indexNumber, a.seatNo)) = [("10", 1), ("9", 2)])
    ∧ cr9.indexNumber = "9" ∧ cr10.indexNumber = "10" := by
  decide

theorem students_sorted_lexicographically_witness :
    ([cr9, cr10] : List ExamRow).length ≤ (buildSeats [("A", 2)]).length ∧
    List.Sorted strLe
      ((((processSlot 1 Session.morning [cr9, cr10] (buildSeats [("A", 2)])).1).filter
        (fun a => a.subject = "Math")).map (fun a => a.indexNumber)) :=
  ⟨by decide, students_sorted_lexicographically 1 Session.morning [cr9, cr10]
    (buildSeats [("A", 2)]) "Math" (by decide)⟩

theorem slot_allocation_complete_witness :
    ([wr1] : List ExamRow).length ≤ ([ws1] : List Seat).length ∧
    ((processSlot 3 Session.morning [wr1] [ws1]).2 = [] ∧
      (((processSlot 3 Session.morning [wr1] [ws1]).1).map
        (fun a => (a.indexNumber, a.subject))).Perm
        (([wr1] : List ExamRow).map (fun r => (r.indexNumber, r.subject)))) :=
  ⟨by decide, slot_allocation_complete 3 Session.morning [wr1] [ws1] (by decide)⟩

theorem capacity_error_iff_demand_exceeds_pool_witness :
    (processSlot 3 Session.morning [wr1, wr2] [ws1]).2 ≠ [] ∧
    processSlot 3 Session.morning [wr1, wr2] [ws1]
      = ([], [Diag.capacity Session.morning 3 2 1]) :=
  ⟨(capacity_error_iff_demand_exceeds_pool 3 Session.morning [wr1, wr2] [ws1]).1.mpr
      (by decide),
    (capacity_error_iff_demand_exceeds_pool 3 Session.morning [wr1, wr2] [ws1]).2 (by decide)⟩

theorem expandBoth_eq_single (r : ExamRow) (h : r.session ≠ Session.both) :
    expandBoth r = [r] := by
  simp [expandBoth, h]

theorem split_parts_perm (long : List ExamRow) :
    (long.filter (fun r => r.session ≠ Session.both)
      ++ (long.filter (fun r => r.session = Session.both)).map
          (fun r => withSession r Session.morning)
      ++ (long.filter (fun r => r.session = Session.both)).map
          (fun r => withSession r Session.afternoon)).Perm
    (long.flatMap expandBoth) := by
  induction long with
  | nil => simp
  | cons r rest ih =>
    rw [List.flatMap_cons]
    by_cases hr : r.session = Session.both
    · have h1 : (r :: rest).filter (fun r => r.session ≠ Session.both)
          = rest.filter (fun r => r.session ≠ Session.both) := by
        simp [hr]
      have h2 : (r :: rest).filter (fun r => r.session = Session.both)
          = r :: rest.filter (fun r => r.session = Session.both) := by
        simp [hr]
      have h3 : expandBoth r
          = [withSession r Session.morning, withSession r Session.afternoon] := by
        simp [expandBoth, hr]
      rw [h1, h2, h3, List.map_cons, List.map_cons]
      have j1 : ((rest.filter (fun r => r.session ≠ Session.both)
            ++ (withSession r Session.morning ::
              (rest.filter (fun r => r.session = Session.both)).map
                (fun r => withSession r Session.morning)))
          ++ (withSession r Session.afternoon ::
              (rest.filter (fun r => r.session = Session.both)).map
                (fun r => withSession r Session.afternoon))).Perm
          (withSession r Session.morning ::
            (rest.filter (fun r => r.session ≠ Session.both)
              ++ ((rest.filter (fun r => r.session = Session.both)).map
                    (fun r => withSession r Session.morning)
                ++ withSession r Session.afternoon ::
                  (rest.filter (fun r => r.session = Session.both)).map
                    (fun r => withSession r Session.afternoon)))) := by
        rw [List.append_assoc, List.cons_append]
        exact List.perm_middle
      have j2 : (rest.filter (fun r => r.session ≠ Session.both)
            ++ ((rest.filter (fun r => r.session = Session.both)).map
                  (fun r => withSession r Session.morning)
              ++ withSession r Session.afternoon ::
                (rest.filter (fun r => r.session = Session.both)).map
                  (fun r => withSession r Session.afternoon))).Perm
          (withSession r Session.afternoon ::
            ((rest.filter (fun r => r.session ≠ Session.both)
              ++ (rest.filter (fun r => r.session = Session.both)).map
                  (fun r => withSession r Session.morning))
              ++ (rest.filter (fun r => r.session = Session.both)).map
                  (fun r => withSession r Session.afternoon))) := by
        rw [← List.append_assoc]
        exact List.perm_middle
      exact j1.trans ((j2.trans (ih.cons (withSession r Session.afternoon))).cons
        (withSession r Session.morning))
    · have h1 : (r :: rest).filter (fun r => r.session ≠ Session.both)
          = r :: rest.filter (fun r => r.session ≠ Session.both) := by
        simp [hr]
      have h2 : (r :: rest).filter (fun r => r.session = Session.both)
          = rest.filter (fun r => r.session = Session.both) := by
        simp [hr]
      rw [h1, h2, expandBoth_eq_single r hr]
      exact ih.cons r

theorem splitBoth_perm (long : List ExamRow) :
    (splitBoth long).Perm (long.flatMap expandBoth) := by
  simp only [splitBoth]
  by_cases he : (long.filter (fun r => r.session = Session.both)).isEmpty
  · rw [if_pos he]
    have hall : ∀ r ∈ long, r.session ≠ Session.both := by
      rw [List.isEmpty_iff] at he
      intro r hr hcon
      have hmem : r ∈ long.filter (fun r => r.session = Session.both) := by
        simp [List.mem_filter, hr, hcon]
      rw [he] at hmem
      simp at hmem
    have heq : long.flatMap expandBoth = long := by
      rw [List.flatMap_congr (fun r hr => expandBoth_eq_single r (hall r hr))]
      exact List.flatMap_singleton' long
    rw [heq]
  · rw [if_neg he]
    exact split_parts_perm long

theorem countP_flatMap_expandBoth (subj : String) :
    ∀ (long : List ExamRow), (∀ r ∈ long, r.subject = subj → r.session = Session.both) →
      (long.flatMap expandBoth).countP (fun r => r.subject = subj)
        = 2 * long.countP (fun r => r.subject = subj) := by
  intro long
  induction long with
  | nil => intro _; simp
  | cons r rest ih =>
    intro h
    rw [List.flatMap_cons, List.countP_append,
      ih (fun x hx => h x (List.mem_cons_of_mem _ hx))]
    by_cases hs : r.subject = subj
    · have hb := h r (List.mem_cons_self _ _) hs
      have hc : (expandBoth r).countP (fun r => r.subject = subj) = 2 := by
        simp [expandBoth, hb, withSession, List.countP_cons, hs]
      rw [hc, List.countP_cons]
      simp [hs]
      omega
    · have hc : (expandBoth r).countP (fun r => r.subject = subj) = 0 := by
        by_cases hb : r.session = Session.both
        · simp [expandBoth, hb, withSession, List.countP_cons, hs]
        · simp [expandBoth, hb, List.countP_cons, hs]
      rw [hc, List.countP_cons]
      simp [hs]

/-- Claim C7: `splitBoth` replaces every `Both` row by exactly two rows that
are identical apart from the session — one Morning, one Afternoon, same date
(this is what `expandBoth` writes out) — so a subject scheduled `Both` with N
rows contributes exactly 2N rows before allocation. -/
theorem both_session_duplication (long : List ExamRow) (subj : String)
    (h : ∀ r ∈ long, r.subject = subj → r.session = Session.both) :
    (splitBoth long).Perm (long.flatMap expandBoth) ∧
    (splitBoth long).countP (fun r => r.subject = subj)
      = 2 * long.countP (fun r => r.subject = subj) := by
  refine ⟨splitBoth_perm long, ?_⟩
  rw [(splitBoth_perm long).countP_eq]
  exact countP_flatMap_expandBoth subj long h

theorem both_session_duplication_witness :
    (∀ r ∈ ([wb1] : List ExamRow), r.subject = "Art" → r.session = Session.both) ∧
    ((splitBoth [wb1]).Perm ([wb1].flatMap expandBoth) ∧
      (splitBoth [wb1]).countP (fun r => r.subject = "Art")
        = 2 * ([wb1] : List ExamRow).countP (fun r => r.subject = "Art")) :=
  ⟨by decide, both_session_duplication [wb1] "Art" (by decide)⟩

/-- Claim C8 (amended): the engine validates only the roster columns — a
missing required column aborts pre-allocation with zero output and the
missing-columns error — while the room configuration is never validated: a
room with capacity ≤ 0 simply contributes zero seats (the pool size is the sum
of the clamped capacities) and the run proceeds. -/
theorem only_columns_validated (cols : List String) (rows : List RosterRow)
    (rooms : List (String × Int)) (details : List (String × Nat × Session)) :
    ((requiredColumns.all (fun c => cols.contains c)) = false →
      generateArrangement cols rows rooms details
        = (none, [Diag.missingColumns
            (requiredColumns.filter (fun c => ¬ cols.contains c))])) ∧
    (buildSeats rooms).length = (rooms.map (fun rc => rc.2.toNat)).sum := by
  constructor
  · intro h
    simp only [generateArrangement]
    have hcond : ¬ ((requiredColumns.all (fun c => cols.contains c)) = true) := by
      rw [h]
      simp
    rw [if_pos hcond]
  · show (rooms.enum.flatMap (fun p =>
        (List.range p.2.2.toNat).map
          (fun k => ({ room := roomLabel p.1 p.2.1, seatNo := k + 1 } : Seat)))).length
      = (rooms.map (fun rc => rc.2.toNat)).sum
    unfold List.flatMap
    rw [List.length_flatten, List.map_map]
    have h2 : (List.length ∘ fun p : Nat × String × Int =>
        (List.range p.2.2.toNat).map
          (fun k => ({ room := roomLabel p.1 p.2.1, seatNo := k + 1 } : Seat)))
        = (fun p : Nat × String × Int => p.2.2.toNat) := by
      funext p
      simp
    rw [h2]
    have h4 : rooms.enum.map (fun p : Nat × String × Int => p.2.2.toNat)
        = (rooms.enum.map Prod.snd).map (fun rc : String × Int => rc.2.toNat) := by
      rw [List.map_map]
      rfl
    rw [h4, List.enum_eq_enumFrom, List.enumFrom_map_snd]

/-- Claim C8 is false as stated: a room configuration containing a capacity-0
room (and even a capacity-0 room first) is not rejected — the run emits no
message, succeeds, and seats the student in the next room. -/
theorem room_validation_counterexample :
    (generateArrangement requiredColumns [cRoster] cRooms cDetails).2 = [] ∧
    (generateArrangement requiredColumns [cRoster] cRooms cDetails).1
      = some ([{ date := 5, room := "Room 2 (B)", seatNo := 1, indexNumber := "001",
                 fullName := "John Doe", className := "3A", subject := "Math",
                 session := Session.morning }],
              [{ date := 5, session := Session.morning, totalStudents := 1,
                 totalSeats := 1, roomsUsed := 1 }]) ∧
    cRooms = [("A", 0), ("B", 1)] := by
  decide

theorem only_columns_validated_witness :
    generateArrangement ["IndexNumber"] [cRoster] cRooms cDetails
      = (none, [Diag.missingColumns
          ["Full_Name", "Core_Subjects", "Elective_Subjects", "Class"]]) ∧
    (buildSeats cRooms).length = 1 :=
  ⟨((only_columns_validated ["IndexNumber"] [cRoster] cRooms cDetails).1
      (by decide)).trans (by decide),
    ((only_columns_validated ["IndexNumber"] [cRoster] cRooms cDetails).2).trans
      (by decide)⟩

theorem resolveSessions_length (es : List Enrollment)
    (details : List (String × Nat × Session)) :
    (resolveSessions es details).length
      = (es.filter (fun e => (details.lookup e.subject).isSome)).length := by
  induction es with
  | nil => rfl
  | cons e rest ih =>
    show (List.filterMap _ (e :: rest)).length = ((e :: rest).filter _).length
    rw [List.filterMap_cons, List.filter_cons]
    cases hl : details.lookup e.subject with
    | none => simpa [hl] using ih
    | some v =>
      obtain ⟨dt, ss⟩ := v
      simpa [hl] using ih

theorem mem_longRows_scheduled (rows : List RosterRow)
    (details : List (String × Nat × Session)) :
    ∀ r ∈ longRows rows details, (details.lookup r.subject).isSome := by
  intro r hr
  unfold longRows at hr
  have h1 := (splitBoth_perm _).mem_iff.mp hr
  rw [List.mem_flatMap] at h1
  obtain ⟨r0, hr0, hrexp⟩ := h1
  have hsub : r.subject = r0.subject := by
    simp only [expandBoth] at hrexp
    by_cases hb : r0.session = Session.both
    · rw [if_pos hb] at hrexp
      simp only [List.mem_cons, List.mem_singleton, List.not_mem_nil, or_false] at hrexp
      rcases hrexp with rfl | rfl <;> rfl
    · rw [if_neg hb] at hrexp
      simp only [List.mem_singleton] at hrexp
      rw [hrexp]
  have h2 : (details.lookup r0.subject).isSome := by
    unfold resolveSessions at hr0
    rw [List.mem_filterMap] at hr0
    obtain ⟨e, _, heq⟩ := hr0
    cases hl : details.lookup e.subject with
    | none =>
      rw [hl] at heq
      simp at heq
    | some v =>
      obtain ⟨dt, ss⟩ := v
      rw [hl] at heq
      simp only [Option.some.injEq] at heq
      have hse : r0.subject = e.subject := by
        rw [← heq]
      rw [hse, hl]
      rfl
  rw [hsub]
  exact h2

/-- Claim C9 (amended): rows whose subject is absent from the schedule are
excluded without failing the run — allocation works on exactly the rows whose
subject has a schedule entry and every emitted assignment's subject is
scheduled — but the number of dropped rows is not reported anywhere. -/
theorem unscheduled_rows_dropped (rows : List RosterRow) (rooms : List (String × Int))
    (details : List (String × Nat × Session)) :
    ((resolveSessions (expandEnrollments rows) details).length
      = ((expandEnrollments rows).filter
          (fun e => (details.lookup e.subject).isSome)).length) ∧
    (∀ a ∈ arrangementRows rows rooms details, (details.lookup a.subject).isSome) := by
  refine ⟨resolveSessions_length _ _, ?_⟩
  intro a ha
  unfold arrangementRows at ha
  rw [List.mem_flatMap] at ha
  obtain ⟨p, _, hap⟩ := ha
  have h1 : rowOf a ∈ longRows rows details := by
    simp only [slotOutput] at hap
    split at hap
    · simp at hap
    · have h2 := mem_processSlot_rowOf p.1 p.2 _ _ a hap
      unfold slotRows at h2
      exact (List.mem_filter.mp h2).1
  exact mem_longRows_scheduled rows details (rowOf a) h1

/-- Claim C9 is false in its reporting half: one of two enrollment rows is
unscheduled (History has no schedule entry); the run succeeds with one
assignment and the diagnostics list is empty — the dropped count is reported
nowhere. -/
theorem dropped_rows_unreported_counterexample :
    (expandEnrollments [cRoster2]).length = 2 ∧
    (resolveSessions (expandEnrollments [cRoster2]) cDetails).length = 1 ∧
    (generateArrangement requiredColumns [cRoster2] cRooms2 cDetails).2 = [] ∧
    (generateArrangement requiredColumns [cRoster2] cRooms2 cDetails).1
      = some ([cAssign2],
          [{ date := 5, session := Session.morning, totalStudents := 1,
             totalSeats := 2, roomsUsed := 1 }]) := by
  decide

theorem unscheduled_rows_dropped_witness :
    ((resolveSessions (expandEnrollments [cRoster2]) cDetails).length
      = ((expandEnrollments [cRoster2]).filter
          (fun e => (cDetails.lookup e.subject).isSome)).length) ∧
    (cDetails.lookup cAssign2.subject).isSome :=
  ⟨(unscheduled_rows_dropped [cRoster2] cRooms2 cDetails).1,
    (unscheduled_rows_dropped [cRoster2] cRooms2 cDetails).2 cAssign2 (by decide)⟩

/-- Claim C10: whenever a run produces zero assignment rows overall the engine
returns `None` rather than an empty table with empty statistics, and a `Some`
result always carries a non-empty table. -/
theorem empty_arrangement_returns_none (cols : List String) (rows : List RosterRow)
    (rooms : List (String × Int)) (details : List (String × Nat × Session)) :
    (∀ arr stats, (generateArrangement cols rows rooms details).1 = some (arr, stats)
      → arr ≠ []) ∧
    (arrangementRows rows rooms details = []
      → (generateArrangement cols rows rooms details).1 = none) := by
  constructor
  · intro arr stats h
    simp only [generateArrangement] at h
    split_ifs at h with h1 h2 h3 h4
    all_goals try simp at h
    intro hc
    apply h4
    rw [h.1, hc]
    rfl
  · intro h
    simp only [generateArrangement]
    split_ifs with h1 h2 h3 h4
    all_goals try rfl
    have hx : (arrangementRows rows rooms details).isEmpty = true := by
      rw [h]
      rfl
    exact absurd hx h4

theorem empty_arrangement_returns_none_witness :
    ([cAssign2] : List Assignment) ≠ [] ∧
    (generateArrangement requiredColumns [] cRooms2 cDetails).1 = none :=
  ⟨(empty_arrangement_returns_none requiredColumns [cRoster2] cRooms2 cDetails).1
      [cAssign2] [{ date := 5, session := Session.morning, totalStudents := 1,
                    totalSeats := 2, roomsUsed := 1 }] (by decide),
    (empty_arrangement_returns_none requiredColumns [] cRooms2 cDetails).2 (by decide)⟩

theorem subjectsInSession_count_desc (rows : List ExamRow) :
    List.Pairwise (fun a b : String =>
      (rows.map (fun r => r.subject)).count b ≤ (rows.map (fun r => r.subject)).count a)
      (subjectsInSession rows) := by
  have hsorted := List.sorted_insertionSort countLe (subjectCounts rows)
  have hrev : List.Pairwise (fun a b : String × Nat => b.2 ≤ a.2)
      ((List.insertionSort countLe (subjectCounts rows)).reverse) := by
    rw [List.pairwise_reverse]
    exact hsorted
  have hmem : ∀ p ∈ (List.insertionSort countLe (subjectCounts rows)).reverse,
      p.2 = (rows.map (fun r => r.subject)).count p.1 := by
    intro p hp
    have h1 : p ∈ subjectCounts rows :=
      (List.perm_insertionSort countLe _).mem_iff.mp ((List.reverse_perm _).mem_iff.mp hp)
    unfold subjectCounts at h1
    rw [List.mem_map] at h1
    obtain ⟨s, _, rfl⟩ := h1
    rfl
  unfold subjectsInSession
  rw [List.pairwise_map]
  refine hrev.imp_of_mem (fun hp hq hle => ?_)
  rw [← hmem _ hp, ← hmem _ hq]
  exact hle
